import Mathlib

/-!
# Polygon admission pipeline of `go-restapi`

Shallow embedding of `src/main.go`: the point and polygon records, the
reflection driven bound check `verifyPoint`, the shoelace loop `getArea`, the
in-place `reverse`, the admission routine `addPolygon`, its HTTP caller
`postPolygons` and the body of one `polygonGenerator` task.

Conventions of the embedding.

* A coordinate is an exact rational number: every finite `float32` is one,
  and comparisons of `float32` values are exact. NaN and the infinities do not
  occur as coordinates.
* The result of a `float32` multiplication, addition, subtraction or division
  is the exact result rounded to the nearest `float32`, ties to even, one
  rounding per operation (no fused multiply-add). The two zeros are
  identified; the infinities and NaN are the single value `nonFinite`.
* A Go slice is a `List`; a function that mutates its argument through a
  pointer returns the new value.
* The database functions of `src/database.go` talk to MySQL; they are the
  fields of a `Store` record of oracles, and every call issued is recorded in
  a trace of `DbCall`s.
-/

namespace GoRestApi

/-! ## Data model (`main.go` lines 17-29) -/

/-- The Go struct `point`: two coordinates. -/
structure point where
  X : ℚ
  Y : ℚ
deriving DecidableEq

/-- A `float32` as the arithmetic of `getArea` produces it: a finite value, or
`nonFinite` for an infinity or NaN (an overflow never becomes finite again). -/
inductive float32 where
  | finite (value : ℚ)
  | nonFinite
deriving DecidableEq

/-- The Go struct `polygon`. -/
structure polygon where
  Points : List point
  Area : float32
  Name : String
deriving DecidableEq

/-- What `reflect` sees of one struct field: its name and its struct tag, the
tag being a list of key/value pairs. -/
structure StructField where
  Name : String
  Tag : List (String × String)

/-- The fields of `point` as declared on lines 17-20: `X` carries the tags
`min:"0" max:"999999"`, `Y` carries none. -/
def pointFields : List StructField :=
  [⟨"X", [("min", "0"), ("max", "999999")]⟩, ⟨"Y", []⟩]

/-- `reflect.StructTag.Lookup`: the value stored under `key`, if any. -/
def tagLookup (tag : List (String × String)) (key : String) : Option String :=
  match tag with
  | [] => none
  | (k, v) :: rest => if k = key then some v else tagLookup rest key

/-- Value of a run of decimal digits, most significant first, on top of the
accumulator `acc`; `none` when a character is not a digit. -/
def parseDigits : List Char → Nat → Option Nat
  | [], acc => some acc
  | c :: cs, acc =>
      if 48 ≤ c.toNat ∧ c.toNat ≤ 57 then parseDigits cs (10 * acc + (c.toNat - 48))
      else none

/-- `strconv.ParseFloat(s, 32)` on the literals the source feeds it: a
non-empty run of decimal digits is its value, anything else is an error
(`none`). Integers below `2^24` are exact in `float32`, so no rounding is
involved for the tags of `point`. -/
def parseFloat (s : String) : Option ℚ :=
  match s.toList with
  | [] => none
  | c :: cs => (parseDigits (c :: cs) 0).map (fun n => (n : ℚ))

/-! ## `float32` arithmetic (IEEE 754 binary32, round to nearest even) -/

/-- The integer nearest to `x`; a tie goes to the even neighbour. -/
def roundHalfEven (x : ℚ) : ℤ :=
  if 2 * (x - ⌊x⌋) < 1 then ⌊x⌋
  else if 1 < 2 * (x - ⌊x⌋) then ⌊x⌋ + 1
  else if ⌊x⌋ % 2 = 0 then ⌊x⌋
  else ⌊x⌋ + 1

/-- Exponent of the spacing of `float32` values around `x`: 24 significant
bits, so `2 ^ (⌊log₂ |x|⌋ - 23)`, and never finer than the subnormal spacing
`2 ^ (-149)`. -/
def quantumExp (x : ℚ) : ℤ :=
  max (Int.log 2 |x| - 23) (-149)

/-- The `float32` nearest to the exact value `x`: round `x` to a multiple of
the spacing; a result of magnitude `2 ^ 128` or more has overflowed. -/
def round32 (x : ℚ) : float32 :=
  let r : ℚ := roundHalfEven (x / 2 ^ quantumExp x) * 2 ^ quantumExp x
  if |r| < 2 ^ 128 then .finite r else .nonFinite

/-- The product `a * b` of two finite `float32` values. -/
def f32mul (a b : ℚ) : float32 :=
  round32 (a * b)

/-- The sum `a + b` in `float32`. -/
def f32add : float32 → float32 → float32
  | .finite a, .finite b => round32 (a + b)
  | _, _ => .nonFinite

/-- The difference `a - b` in `float32`. -/
def f32sub : float32 → float32 → float32
  | .finite a, .finite b => round32 (a - b)
  | _, _ => .nonFinite

/-- The quotient `a / 2` in `float32`. -/
def f32half : float32 → float32
  | .finite a => round32 (a / 2)
  | .nonFinite => .nonFinite

/-! ## Geometry kernel (`main.go` lines 120-167) -/

/-- One iteration of the loop of `verifyPoint` (lines 124-141) for the struct
field `f`: `false` when the iteration executes `return false`, `true` when it
falls through to the next field. -/
def verifyField (pt : point) (f : StructField) : Bool :=
  let minOk : Bool :=
    match tagLookup f.Tag "min" with
    | some minString =>
        match parseFloat minString with
        | some min => if pt.X < min ∨ pt.Y < min then false else true
        | none => true
    | none => true
  if minOk then
    match tagLookup f.Tag "max" with
    | some maxString =>
        match parseFloat maxString with
        | some max => if pt.X > max ∨ pt.Y > max then false else true
        | none => true
    | none => true
  else false

/-- The loop of `verifyPoint` over a list of struct fields. -/
def verifyFields (pt : point) : List StructField → Bool
  | [] => true
  | f :: rest => if verifyField pt f then verifyFields pt rest else false

/-- `verifyPoint` (lines 121-144): walk the fields of the type `point` and
compare both coordinates against every `min` and `max` tag found. -/
def verifyPoint (pt : point) : Bool :=
  verifyFields pt pointFields

/-- The loop of `getArea` (lines 150-157), started at the head of the list
with the running sums `xySum` and `yxSum`. One step handles the pair
`points[i]`, `points[i+1]`; the loop stops when no successor is left.
`none` is the early `return 0., false`. -/
def getAreaLoop : List point → float32 → float32 → Option (float32 × float32)
  | p :: q :: rest, xySum, yxSum =>
      if !verifyPoint p then none
      else getAreaLoop (q :: rest) (f32add xySum (f32mul p.X q.Y)) (f32add yxSum (f32mul p.Y q.X))
  | _, xySum, yxSum => some (xySum, yxSum)

/-- `getArea` (lines 147-159): the area and the `valid` flag. Both sums start
at the zero value of `float32`. -/
def getArea (points : List point) : float32 × Bool :=
  match getAreaLoop points (.finite 0) (.finite 0) with
  | none => (.finite 0, false)
  | some (xySum, yxSum) => (f32half (f32sub xySum yxSum), true)

/-- The body of the loop of `reverse` (line 165): exchange the elements at
positions `i` and `j`. -/
def swapAt (points : List point) (i j : Nat) : List point :=
  match points[i]?, points[j]? with
  | some a, some b => (points.set i b).set j a
  | _, _ => points

/-- The loop of `reverse` (lines 163-166) with `steps` iterations left and the
loop counter at `i`. The length of the slice never changes, so the number of
iterations is fixed when the loop is entered. -/
def reverseLoop : Nat → Nat → List point → List point
  | 0, _, points => points
  | steps + 1, i, points =>
      reverseLoop steps (i + 1) (swapAt points i (points.length - i - 1))

/-- `reverse` (lines 162-167): `len/2` swaps, starting at index 0. -/
def reverse (points : List point) : List point :=
  reverseLoop (points.length / 2) 0 points

/-! ## The store (`database.go`) as oracles, and the trace of calls -/

/-- The database functions the pipeline calls. Each answers either with a
value or with an infrastructure error. -/
structure Store where
  dbNameExists : String → Except String Bool
  dbCheckIntersections : List point → Except String Bool
  dbAddPolygon : polygon → Option String
  dbAddPolygons : List polygon → Option String
  dbGetPolygons : Except String (List polygon)

/-- One call issued to the store, with its argument. -/
inductive DbCall where
  | nameExists (name : String)
  | checkIntersections (points : List point)
  | addOne (p : polygon)
  | addMany (ps : List polygon)
  | getAll
deriving DecidableEq

/-- Outcome of `addPolygon`: the polygon behind the pointer `newPolygon` when
the function returns, the returned `error` (`none` is `nil`) and the store
calls issued, in order. -/
structure AddResult where
  poly : polygon
  err : Option String
  calls : List DbCall
deriving DecidableEq

/-! ## Validation pipeline (`main.go` lines 56-118) -/

/-- Lines 99-100 of `addPolygon`: append `Points[0]` to the slice, then
`reverse` it. Index 0 is in range wherever this is reached (the slice has at
least three elements there); on an empty slice Go would stop with a run-time
error, which is rendered as leaving the slice alone. -/
def closeAndReverse (points : List point) : List point :=
  match points with
  | [] => []
  | first :: rest => reverse ((first :: rest) ++ [first])

/-- `addPolygon` (lines 85-118). The `*gin.Context` argument is not used by
the function and is left out. -/
def addPolygon (db : Store) (newPolygon : polygon) : AddResult :=
  if newPolygon.Points.length < 3 then
    ⟨newPolygon, some "addPolygon: you must have atleast 3 vertices", []⟩
  else
    match db.dbNameExists newPolygon.Name with
    | .error e => ⟨newPolygon, some ("addPolygon: " ++ e), [.nameExists newPolygon.Name]⟩
    | .ok true =>
        ⟨newPolygon, some "addPolygon: polygon with that name already exists",
          [.nameExists newPolygon.Name]⟩
    | .ok false =>
        let closed : polygon := { newPolygon with Points := closeAndReverse newPolygon.Points }
        let calls : List DbCall :=
          [.nameExists newPolygon.Name, .checkIntersections closed.Points]
        match db.dbCheckIntersections closed.Points with
        | .error e => ⟨closed, some ("addPolygon: " ++ e), calls⟩
        | .ok true =>
            ⟨closed, some "addPolygon: polygon is intersecting with others in database", calls⟩
        | .ok false =>
            let measured : polygon := { closed with Area := (getArea closed.Points).1 }
            if !(getArea closed.Points).2 then
              ⟨measured, some "addPolygon: x and y bounds not satisfied", calls⟩
            else ⟨measured, none, calls⟩

/-- `updateCache` (lines 169-177): the new value of the global
`polygonsCache`. A failed listing keeps the old cache. -/
def updateCache (db : Store) (polygonsCache : List polygon) : List polygon :=
  match db.dbGetPolygons with
  | .error _ => polygonsCache
  | .ok polygons => polygons

/-- Outcome of one `postPolygons` request: HTTP status, the value of the global
`polygonsCache` afterwards, and the store calls issued, in order. -/
structure PostResult where
  status : Nat
  cache : List polygon
  calls : List DbCall
deriving DecidableEq

/-- `postPolygons` (lines 57-83). `body` is the result of `c.BindJSON`: `none`
when the request body cannot be bound to a `polygon`. -/
def postPolygons (db : Store) (polygonsCache : List polygon) (body : Option polygon) :
    PostResult :=
  match body with
  | none => ⟨400, polygonsCache, []⟩
  | some newPolygon =>
      let r := addPolygon db newPolygon
      match r.err with
      | some _ => ⟨400, polygonsCache, r.calls⟩
      | none =>
          match db.dbAddPolygon r.poly with
          | some _ => ⟨400, polygonsCache, r.calls ++ [.addOne r.poly]⟩
          | none => ⟨201, updateCache db polygonsCache, r.calls ++ [.addOne r.poly, .getAll]⟩

/-! ## One task of the batch generator (`main.go` lines 203-218) -/

/-- The body of the goroutine started by `polygonGenerator` for index `i`, up
to the validation result. `id` is `fmt.Sprint` of the batch id and `vertices`
is what `generateVertices` returned (both come from the random source). The
task names the polygon, reverses the generated slice and hands it to
`addPolygon`; the `Area` of the fresh `newPoly` is the zero value. -/
def generatorTask (db : Store) (id : String) (i : Nat) (vertices : List point) : AddResult :=
  let newPoly : polygon :=
    { Points := reverse vertices, Area := .finite 0, Name := "randomPoly_" ++ id ++ "_" ++ toString i }
  addPolygon db newPoly

/-- A store with no polygon in it: no name exists, nothing intersects, inserts
succeed and the listing is empty. -/
def emptyStore : Store where
  dbNameExists := fun _ => .ok false
  dbCheckIntersections := fun _ => .ok false
  dbAddPolygon := fun _ => none
  dbAddPolygons := fun _ => none
  dbGetPolygons := .ok []

/-- A store in which exactly the name `t1` is taken. -/
def storeWithT1 : Store where
  dbNameExists := fun name => .ok (name == "t1")
  dbCheckIntersections := fun _ => .ok false
  dbAddPolygon := fun _ => none
  dbAddPolygons := fun _ => none
  dbGetPolygons := .ok []

/-! ## Auxiliary notions used in the statements -/

/-- Sum of `f a b` over the consecutive pairs `(a, b)` of a list. -/
def pairSum (f : point → point → ℚ) : List point → ℚ
  | a :: b :: rest => f a b + pairSum f (b :: rest)
  | _ => 0

/-- The summand `x[i] * y[i+1]` of the shoelace formula. -/
def xyTerm (p q : point) : ℚ := p.X * q.Y

/-- The summand `y[i] * x[i+1]` of the shoelace formula. -/
def yxTerm (p q : point) : ℚ := p.Y * q.X

/-- Both coordinates are whole numbers. -/
def wholePoint (pt : point) : Prop :=
  ∃ a b : ℕ, pt.X = a ∧ pt.Y = b

/-- The coordinate range `[0, 999999]` on both axes. -/
def inBounds (pt : point) : Prop :=
  (0 ≤ pt.X ∧ pt.X ≤ 999999) ∧ (0 ≤ pt.Y ∧ pt.Y ≤ 999999)

/-! ## `reverse` computes the reversed list -/

theorem swapAt_length (l : List point) (i j : Nat) : (swapAt l i j).length = l.length := by
  unfold swapAt
  split <;> simp

theorem swapAt_getElem? (l : List point) (i j k : Nat) (hi : i < l.length) (hj : j < l.length) :
    (swapAt l i j)[k]? = if k = j then l[i]? else if k = i then l[j]? else l[k]? := by
  unfold swapAt
  rw [List.getElem?_eq_getElem hi, List.getElem?_eq_getElem hj]
  simp only [List.getElem?_set, List.length_set]
  split_ifs <;> first | rfl | omega

theorem reverseLoop_spec (steps : Nat) : ∀ (i : Nat) (l : List point),
    i + steps ≤ l.length / 2 →
    (reverseLoop steps i l).length = l.length ∧
    ∀ k, (reverseLoop steps i l)[k]? =
      if (i ≤ k ∧ k < i + steps) ∨ (l.length - i - steps ≤ k ∧ k < l.length - i)
      then l[l.length - 1 - k]? else l[k]? := by
  induction steps with
  | zero =>
      intro i l _
      refine ⟨rfl, fun k => ?_⟩
      have : ¬ ((i ≤ k ∧ k < i + 0) ∨ (l.length - i - 0 ≤ k ∧ k < l.length - i)) := by omega
      rw [if_neg this]
      rfl
  | succ s ih =>
      intro i l h
      have hlen := swapAt_length l i (l.length - i - 1)
      obtain ⟨h1, h2⟩ := ih (i + 1) (swapAt l i (l.length - i - 1)) (by rw [hlen]; omega)
      refine ⟨by rw [reverseLoop, h1, hlen], fun k => ?_⟩
      rw [reverseLoop, h2 k, hlen]
      rw [swapAt_getElem? l i _ _ (by omega) (by omega),
        swapAt_getElem? l i _ _ (by omega) (by omega)]
      split_ifs <;> first | omega | rfl | (congr 1; omega)

theorem reverse_eq (l : List point) : reverse l = l.reverse := by
  obtain ⟨h1, h2⟩ := reverseLoop_spec (l.length / 2) 0 l (by omega)
  apply List.ext_getElem?
  intro k
  unfold reverse
  rw [h2 k]
  by_cases hk : k < l.length
  · rw [List.getElem?_reverse hk]
    split_ifs
    · rfl
    · congr 1; omega
  · rw [List.getElem?_eq_none (l := l.reverse) (by simp; omega)]
    split_ifs
    · omega
    · exact List.getElem?_eq_none (by omega)
/-! ## The bound check in closed form -/

theorem parseFloat_min : parseFloat "0" = some 0 := by
  simp [parseFloat, parseDigits]

theorem parseFloat_max : parseFloat "999999" = some 999999 := by
  simp [parseFloat, parseDigits]

theorem verifyPoint_eq_true_iff (pt : point) : verifyPoint pt = true ↔ inBounds pt := by
  simp [verifyPoint, verifyFields, verifyField, pointFields, tagLookup, parseFloat_min,
    parseFloat_max, inBounds]
  tauto

theorem verifyPoint_eq_false_iff (pt : point) :
    verifyPoint pt = false ↔ (pt.X < 0 ∨ 999999 < pt.X) ∨ (pt.Y < 0 ∨ 999999 < pt.Y) := by
  rw [← Bool.not_eq_true, verifyPoint_eq_true_iff, inBounds]
  simp only [not_and_or, not_le]

/-! ## Rounding to `float32` -/

theorem roundHalfEven_intCast (z : ℤ) : roundHalfEven (z : ℚ) = z := by
  simp [roundHalfEven]

theorem quantumExp_of_bounds (x : ℚ) (e : ℤ) (hlo : 2 ^ (e + 23) ≤ |x|) (hhi : |x| < 2 ^ (e + 24))
    (he : -149 ≤ e) : quantumExp x = e := by
  have hpos : 0 < |x| := lt_of_lt_of_le (by positivity) hlo
  have h1 : e + 23 ≤ Int.log 2 |x| := (Int.zpow_le_iff_le_log (by norm_num) hpos).1 hlo
  have h2 : Int.log 2 |x| < e + 24 := (Int.lt_zpow_iff_log_lt (by norm_num) hpos).1 hhi
  unfold quantumExp
  have h3 : Int.log 2 |x| - 23 = e := by omega
  rw [h3, max_eq_left he]

theorem quantumExp_le (x : ℚ) (k : ℤ) (hx : x ≠ 0) (h : |x| < 2 ^ (k + 24)) (hk : -149 ≤ k) :
    quantumExp x ≤ k := by
  have h2 : Int.log 2 |x| < k + 24 :=
    (Int.lt_zpow_iff_log_lt (by norm_num) (abs_pos.2 hx)).1 h
  unfold quantumExp
  exact max_le (by omega) hk

theorem round32_of_multiple (x : ℚ) (z : ℤ) (hz : x / 2 ^ quantumExp x = z)
    (hfin : |x| < 2 ^ 128) : round32 x = .finite x := by
  have hpow : (2 : ℚ) ^ quantumExp x ≠ 0 := zpow_ne_zero _ (by norm_num)
  have hback : (z : ℚ) * 2 ^ quantumExp x = x := by
    rw [← hz, div_mul_cancel₀ _ hpow]
  unfold round32
  simp only [hz, roundHalfEven_intCast, hback, hfin, if_true]

theorem round32_dyadic (m k : ℤ) (hm : |m| < 2 ^ 24) (hk : -149 ≤ k)
    (hfin : |(m : ℚ) * 2 ^ k| < 2 ^ 128) :
    round32 ((m : ℚ) * 2 ^ k) = .finite ((m : ℚ) * 2 ^ k) := by
  by_cases hm0 : m = 0
  · subst hm0
    apply round32_of_multiple _ 0 _ hfin
    simp
  · have hx : (m : ℚ) * 2 ^ k ≠ 0 :=
      mul_ne_zero (Int.cast_ne_zero.2 hm0) (zpow_ne_zero _ (by norm_num))
    have hmq : |(m : ℚ)| < 2 ^ 24 := by exact_mod_cast hm
    have habs : |(m : ℚ) * 2 ^ k| < 2 ^ (k + 24) := by
      rw [abs_mul, abs_of_pos (by positivity : (0 : ℚ) < 2 ^ k), zpow_add₀ (by norm_num : (2 : ℚ) ≠ 0),
        mul_comm]
      exact mul_lt_mul_of_pos_left (by exact_mod_cast hmq) (by positivity)
    have hle := quantumExp_le _ k hx habs hk
    obtain ⟨d, hd⟩ := Int.eq_ofNat_of_zero_le (sub_nonneg.2 hle)
    apply round32_of_multiple _ (m * 2 ^ d) _ hfin
    have hk2 : k = quantumExp ((m : ℚ) * 2 ^ k) + d := by omega
    have hpow : (2 : ℚ) ^ quantumExp ((m : ℚ) * 2 ^ k) ≠ 0 := zpow_ne_zero _ (by norm_num)
    rw [div_eq_iff hpow]
    push_cast
    nth_rewrite 1 [hk2]
    rw [zpow_add₀ (by norm_num : (2 : ℚ) ≠ 0), zpow_natCast]
    ring

theorem round32_intCast (z : ℤ) (h : |z| < 2 ^ 24) : round32 (z : ℚ) = .finite z := by
  have hq : |(z : ℚ)| < 2 ^ 24 := by exact_mod_cast h
  have := round32_dyadic z 0 h (by norm_num)
    (by rw [zpow_zero, mul_one]; exact lt_trans hq (by norm_num))
  simpa using this

theorem round32_natCast (n : ℕ) (h : n < 2 ^ 24) : round32 (n : ℚ) = .finite n := by
  have := round32_intCast (n : ℤ) (by rw [abs_of_nonneg (by positivity)]; exact_mod_cast h)
  simpa using this

theorem round32_half_intCast (z : ℤ) (h : |z| < 2 ^ 24) :
    round32 ((z : ℚ) / 2) = .finite ((z : ℚ) / 2) := by
  have hq : |(z : ℚ)| < 2 ^ 24 := by exact_mod_cast h
  have hval : (z : ℚ) * 2 ^ (-1 : ℤ) = (z : ℚ) / 2 := by
    rw [zpow_neg_one]; rfl
  have := round32_dyadic z (-1) h (by norm_num) (by
    rw [hval, abs_div, abs_of_pos (by norm_num : (0 : ℚ) < 2)]
    linarith)
  rw [hval] at this
  exact this

theorem round32_of_bounds (x : ℚ) (e m : ℤ) (hlo : 2 ^ (e + 23) ≤ |x|) (hhi : |x| < 2 ^ (e + 24))
    (he : -149 ≤ e) (hm : roundHalfEven (x / 2 ^ e) = m) (hfin : |(m : ℚ) * 2 ^ e| < 2 ^ 128) :
    round32 x = .finite ((m : ℚ) * 2 ^ e) := by
  unfold round32
  simp only [quantumExp_of_bounds x e hlo hhi he, hm, hfin, if_true]

theorem f32add_finite (a b : ℚ) : f32add (.finite a) (.finite b) = round32 (a + b) := rfl

theorem f32sub_finite (a b : ℚ) : f32sub (.finite a) (.finite b) = round32 (a - b) := rfl

theorem f32half_finite (a : ℚ) : f32half (.finite a) = round32 (a / 2) := rfl

theorem round32_zero : round32 0 = .finite 0 := by
  simpa using round32_natCast 0 (by norm_num)

theorem round32_16785409 : round32 16785409 = .finite 16785408 := by
  have hm : roundHalfEven ((16785409 : ℚ) / 2 ^ (1 : ℤ)) = 8392704 := by
    have hfloor : ⌊(16785409 : ℚ) / 2 ^ (1 : ℤ)⌋ = 8392704 := by
      rw [Int.floor_eq_iff]; norm_num
    unfold roundHalfEven
    rw [hfloor]
    norm_num
  have h := round32_of_bounds 16785409 1 8392704 (by norm_num) (by norm_num) (by norm_num) hm
    (by norm_num)
  norm_num at h
  exact h

theorem round32_16785408 : round32 16785408 = .finite 16785408 := by
  have h := round32_dyadic 8392704 1 (by norm_num) (by norm_num) (by norm_num)
  norm_num at h
  exact h

theorem round32_16785410 : round32 16785410 = .finite 16785410 := by
  have h := round32_dyadic 8392705 1 (by norm_num) (by norm_num) (by norm_num)
  norm_num at h
  exact h

/-! ## The shoelace loop: the `valid` flag -/

theorem getAreaLoop_checked : ∀ (l : List point) (xySum yxSum : float32),
    (∀ pt ∈ l.dropLast, verifyPoint pt = true) → ∃ sums, getAreaLoop l xySum yxSum = some sums
  | [], xySum, yxSum, _ => ⟨(xySum, yxSum), by simp [getAreaLoop]⟩
  | [_], xySum, yxSum, _ => ⟨(xySum, yxSum), by simp [getAreaLoop]⟩
  | p :: q :: rest, xySum, yxSum, h => by
      have hp : verifyPoint p = true := h p (by simp [List.dropLast])
      have hrest : ∀ pt ∈ (q :: rest).dropLast, verifyPoint pt = true := by
        intro pt hpt
        exact h pt (by simp only [List.dropLast_cons₂]; exact List.mem_cons_of_mem _ hpt)
      obtain ⟨sums, hs⟩ := getAreaLoop_checked (q :: rest) (f32add xySum (f32mul p.X q.Y))
        (f32add yxSum (f32mul p.Y q.X)) hrest
      exact ⟨sums, by rw [getAreaLoop, hp]; simpa using hs⟩

theorem getAreaLoop_unchecked : ∀ (l : List point) (xySum yxSum : float32),
    (∃ pt ∈ l.dropLast, verifyPoint pt = false) → getAreaLoop l xySum yxSum = none
  | [], _, _, h => by simp at h
  | [_], _, _, h => by simp at h
  | p :: q :: rest, xySum, yxSum, h => by
      rw [getAreaLoop]
      by_cases hp : verifyPoint p = true
      · obtain ⟨pt, hmem, hbad⟩ := h
        rw [List.dropLast_cons₂, List.mem_cons] at hmem
        have hrest : ∃ pt ∈ (q :: rest).dropLast, verifyPoint pt = false := by
          rcases hmem with rfl | hmem
          · rw [hp] at hbad; cases hbad
          · exact ⟨pt, hmem, hbad⟩
        simp [hp, getAreaLoop_unchecked (q :: rest) _ _ hrest]
      · simp [hp]

theorem getArea_valid (l : List point) (h : ∀ pt ∈ l.dropLast, verifyPoint pt = true) :
    (getArea l).2 = true := by
  obtain ⟨sums, hs⟩ := getAreaLoop_checked l (.finite 0) (.finite 0) h
  simp [getArea, hs]

theorem getArea_unchecked (l : List point) (h : ∃ pt ∈ l.dropLast, verifyPoint pt = false) :
    getArea l = (.finite 0, false) := by
  simp [getArea, getAreaLoop_unchecked l _ _ h]

theorem pairSum_cons_cons (f : point → point → ℚ) (a b : point) (rest : List point) :
    pairSum f (a :: b :: rest) = f a b + pairSum f (b :: rest) := rfl

theorem xyTerm_whole (p q : point) (hp : wholePoint p) (hq : wholePoint q) :
    ∃ n : ℕ, xyTerm p q = n := by
  obtain ⟨a, _, ha, _⟩ := hp
  obtain ⟨_, d, _, hd⟩ := hq
  exact ⟨a * d, by rw [xyTerm, ha, hd]; push_cast; rfl⟩

theorem yxTerm_whole (p q : point) (hp : wholePoint p) (hq : wholePoint q) :
    ∃ n : ℕ, yxTerm p q = n := by
  obtain ⟨_, b, _, hb⟩ := hp
  obtain ⟨c, _, hc, _⟩ := hq
  exact ⟨b * c, by rw [yxTerm, hb, hc]; push_cast; rfl⟩

theorem pairSum_whole (f : point → point → ℚ)
    (hf : ∀ p q, wholePoint p → wholePoint q → ∃ n : ℕ, f p q = n) :
    ∀ l : List point, (∀ pt ∈ l, wholePoint pt) → ∃ n : ℕ, pairSum f l = n
  | [], _ => ⟨0, by simp [pairSum]⟩
  | [_], _ => ⟨0, by simp [pairSum]⟩
  | a :: b :: rest, h => by
      obtain ⟨n, hn⟩ := hf a b (h a (by simp)) (h b (by simp))
      obtain ⟨m, hm⟩ := pairSum_whole f hf (b :: rest)
        (fun pt hpt => h pt (List.mem_cons_of_mem _ hpt))
      exact ⟨n + m, by rw [pairSum_cons_cons, hn, hm]; push_cast; rfl⟩

theorem f32add_mul_exact (acc t s : ℕ) (x y : ℚ) (ht : x * y = t) (h : ((acc + (t + s) : ℕ) : ℚ) < 2 ^ 24) :
    f32add (.finite acc) (f32mul x y) = .finite ((acc + t : ℕ) : ℚ) := by
  have hlt : acc + (t + s) < 2 ^ 24 := by exact_mod_cast h
  rw [f32mul, ht, round32_natCast t (by omega), f32add_finite, ← Nat.cast_add,
    round32_natCast (acc + t) (by omega)]

theorem getAreaLoop_exact : ∀ (l : List point) (accXY accYX : ℕ),
    (∀ pt ∈ l.dropLast, verifyPoint pt = true) → (∀ pt ∈ l, wholePoint pt) →
    (accXY : ℚ) + pairSum xyTerm l < 2 ^ 24 → (accYX : ℚ) + pairSum yxTerm l < 2 ^ 24 →
    getAreaLoop l (.finite accXY) (.finite accYX) =
      some (.finite (accXY + pairSum xyTerm l), .finite (accYX + pairSum yxTerm l))
  | [], _, _, _, _, _, _ => by simp [getAreaLoop, pairSum]
  | [_], _, _, _, _, _, _ => by simp [getAreaLoop, pairSum]
  | p :: q :: rest, accXY, accYX, hv, hw, hxy, hyx => by
      have hp : verifyPoint p = true := hv p (by simp [List.dropLast])
      have hrest : ∀ pt ∈ (q :: rest).dropLast, verifyPoint pt = true := by
        intro pt hpt
        exact hv pt (by simp only [List.dropLast_cons₂]; exact List.mem_cons_of_mem _ hpt)
      have hwrest : ∀ pt ∈ q :: rest, wholePoint pt :=
        fun pt hpt => hw pt (List.mem_cons_of_mem _ hpt)
      obtain ⟨t, ht⟩ := xyTerm_whole p q (hw p (by simp)) (hw q (by simp))
      obtain ⟨u, hu⟩ := yxTerm_whole p q (hw p (by simp)) (hw q (by simp))
      obtain ⟨s, hs⟩ := pairSum_whole xyTerm xyTerm_whole (q :: rest) hwrest
      obtain ⟨r, hr⟩ := pairSum_whole yxTerm yxTerm_whole (q :: rest) hwrest
      rw [pairSum_cons_cons, ht, hs] at hxy
      rw [pairSum_cons_cons, hu, hr] at hyx
      have hxy2 : ((accXY + (t + s) : ℕ) : ℚ) < 2 ^ 24 := by push_cast; exact hxy
      have hyx2 : ((accYX + (u + r) : ℕ) : ℚ) < 2 ^ 24 := by push_cast; exact hyx
      have hstep := getAreaLoop_exact (q :: rest) (accXY + t) (accYX + u) hrest hwrest
        (by rw [hs]; push_cast at hxy2 ⊢; linarith) (by rw [hr]; push_cast at hyx2 ⊢; linarith)
      rw [getAreaLoop, hp, f32add_mul_exact accXY t s p.X q.Y ht hxy2,
        f32add_mul_exact accYX u r p.Y q.X hu hyx2]
      simp only [Bool.not_true, Bool.false_eq_true, if_false]
      rw [hstep, pairSum_cons_cons, pairSum_cons_cons, ht, hu]
      push_cast
      simp only [add_assoc]

theorem getArea_exact (l : List point) (hv : ∀ pt ∈ l.dropLast, verifyPoint pt = true)
    (hw : ∀ pt ∈ l, wholePoint pt) (hxy : pairSum xyTerm l < 2 ^ 24)
    (hyx : pairSum yxTerm l < 2 ^ 24) :
    getArea l = (.finite ((pairSum xyTerm l - pairSum yxTerm l) / 2), true) := by
  have hloop := getAreaLoop_exact l 0 0 hv hw (by simpa using hxy) (by simpa using hyx)
  obtain ⟨s, hs⟩ := pairSum_whole xyTerm xyTerm_whole l hw
  obtain ⟨r, hr⟩ := pairSum_whole yxTerm yxTerm_whole l hw
  rw [hs] at hxy
  rw [hr] at hyx
  have hs24 : s < 2 ^ 24 := by exact_mod_cast hxy
  have hr24 : r < 2 ^ 24 := by exact_mod_cast hyx
  have hdiff : |(s : ℤ) - r| < 2 ^ 24 := by rw [abs_lt]; constructor <;> omega
  have hcast : (s : ℚ) - r = (((s : ℤ) - r : ℤ) : ℚ) := by push_cast; rfl
  simp only [Nat.cast_zero, zero_add] at hloop
  rw [getArea, hloop, hs, hr]
  show (f32half (f32sub (.finite (s : ℚ)) (.finite (r : ℚ))), true) = _
  rw [f32sub_finite, hcast, round32_intCast _ hdiff, f32half_finite,
    round32_half_intCast _ hdiff]

/-! ## Closing and reversing a ring -/

theorem closeAndReverse_cons (first : point) (rest : List point) :
    closeAndReverse (first :: rest) = (first :: rest.reverse) ++ [first] := by
  simp [closeAndReverse, reverse_eq]

theorem closeAndReverse_eq (l : List point) (h : 0 < l.length) :
    closeAndReverse l = (l ++ [l[0]]).reverse := by
  cases l with
  | nil => simp at h
  | cons a t => simp [closeAndReverse, reverse_eq]

theorem mem_dropLast_closeAndReverse (l : List point) (pt : point) :
    pt ∈ (closeAndReverse l).dropLast ↔ pt ∈ l := by
  cases l with
  | nil => simp [closeAndReverse]
  | cons a t => rw [closeAndReverse_cons, List.dropLast_concat]; simp

/-! ## The pair sum under reversal and rotation -/

theorem pairSum_concat (f : point → point → ℚ) (a b : point) : ∀ l : List point,
    pairSum f (l ++ [a] ++ [b]) = pairSum f (l ++ [a]) + f a b
  | [] => by simp [pairSum]
  | [c] => by simp [pairSum, add_assoc]
  | c :: d :: rest => by
      have ih : pairSum f (d :: (rest ++ [a] ++ [b])) = pairSum f (d :: (rest ++ [a])) + f a b :=
        pairSum_concat f a b (d :: rest)
      show pairSum f (c :: d :: (rest ++ [a] ++ [b])) = pairSum f (c :: d :: (rest ++ [a])) + f a b
      rw [pairSum_cons_cons, pairSum_cons_cons, ih, add_assoc]

theorem pairSum_reverse (f : point → point → ℚ) : ∀ l : List point,
    pairSum f l.reverse = pairSum (fun p q => f q p) l
  | [] => by simp [pairSum]
  | [_] => by simp [pairSum]
  | a :: b :: rest => by
      have ih := pairSum_reverse f (b :: rest)
      rw [List.reverse_cons] at ih
      rw [List.reverse_cons, List.reverse_cons, pairSum_concat, ih, pairSum, add_comm]

theorem pairSum_close_rotate_one (f : point → point → ℚ) (l : List point) :
    pairSum f (l.rotate 1 ++ (l.rotate 1).take 1) = pairSum f (l ++ l.take 1) := by
  match l with
  | [] => simp
  | [a] => simp
  | a :: b :: rest =>
      have hrot : (a :: b :: rest).rotate 1 = b :: (rest ++ [a]) := by
        simp [List.rotate_cons_succ]
      rw [hrot]
      show pairSum f ((b :: rest) ++ [a] ++ [b]) = pairSum f (a :: b :: (rest ++ [a]))
      rw [pairSum_concat, pairSum_cons_cons, add_comm]
      rfl

theorem pairSum_close_rotate (f : point → point → ℚ) (l : List point) (k : Nat) :
    pairSum f (l.rotate k ++ (l.rotate k).take 1) = pairSum f (l ++ l.take 1) := by
  induction k with
  | zero => simp
  | succ k ih => rw [← List.rotate_rotate, pairSum_close_rotate_one, ih]

theorem closeAndReverse_take (l : List point) :
    closeAndReverse l = (l ++ l.take 1).reverse := by
  cases l with
  | nil => simp [closeAndReverse]
  | cons a t => simp [closeAndReverse, reverse_eq]

theorem mem_closeAndReverse (l : List point) (pt : point) :
    pt ∈ closeAndReverse l ↔ pt ∈ l := by
  cases l with
  | nil => simp [closeAndReverse]
  | cons a t =>
    rw [closeAndReverse_cons]
    simp only [List.mem_append, List.mem_cons, List.mem_reverse, List.mem_singleton,
      List.not_mem_nil, or_false]
    tauto

theorem closeAndReverse_closed (l : List point) (h : 0 < l.length) :
    2 ≤ (closeAndReverse l).length ∧
      (closeAndReverse l).head? = (closeAndReverse l).getLast? := by
  cases l with
  | nil => simp at h
  | cons a t =>
    rw [closeAndReverse_cons]
    refine ⟨by simp, ?_⟩
    rw [List.getLast?_append_of_ne_nil _ (by simp)]
    rfl

theorem mem_dropLast_of_closed (l : List point) (h2 : 2 ≤ l.length)
    (hclosed : l.head? = l.getLast?) (pt : point) (hpt : pt ∈ l) : pt ∈ l.dropLast := by
  match l, h2 with
  | a :: b :: rest, _ =>
    have hne : a :: b :: rest ≠ [] := by simp
    have hlast : (a :: b :: rest).getLast hne = a := by
      rw [List.getLast?_eq_getLast _ hne] at hclosed
      simpa using hclosed.symm
    rw [← List.dropLast_append_getLast hne, List.mem_append, List.mem_singleton] at hpt
    rcases hpt with hpt | hpt
    · exact hpt
    · rw [hpt, hlast]; simp [List.dropLast]

theorem getArea_closeAndReverse_valid (l : List point) (h : ∀ pt ∈ l, verifyPoint pt = true) :
    (getArea (closeAndReverse l)).2 = true :=
  getArea_valid _ (fun pt hpt => h pt ((mem_dropLast_closeAndReverse l pt).1 hpt))

theorem getArea_closeAndReverse_exact (l : List point) (hv : ∀ pt ∈ l, verifyPoint pt = true)
    (hw : ∀ pt ∈ l, wholePoint pt) (hxy : pairSum xyTerm (l ++ l.take 1) < 2 ^ 24)
    (hyx : pairSum yxTerm (l ++ l.take 1) < 2 ^ 24) :
    getArea (closeAndReverse l) =
      (.finite ((pairSum yxTerm (l ++ l.take 1) - pairSum xyTerm (l ++ l.take 1)) / 2), true) := by
  have h1 : (fun p q => xyTerm q p) = yxTerm := by
    funext p q; simp [xyTerm, yxTerm, mul_comm]
  have h2 : (fun p q => yxTerm q p) = xyTerm := by
    funext p q; simp [xyTerm, yxTerm, mul_comm]
  have hxy2 : pairSum xyTerm (closeAndReverse l) = pairSum yxTerm (l ++ l.take 1) := by
    rw [closeAndReverse_take, pairSum_reverse, h1]
  have hyx2 : pairSum yxTerm (closeAndReverse l) = pairSum xyTerm (l ++ l.take 1) := by
    rw [closeAndReverse_take, pairSum_reverse, h2]
  rw [getArea_exact (closeAndReverse l)
    (fun pt hpt => hv pt ((mem_dropLast_closeAndReverse l pt).1 hpt))
    (fun pt hpt => hw pt ((mem_closeAndReverse l pt).1 hpt))
    (by rw [hxy2]; exact hyx) (by rw [hyx2]; exact hxy), hxy2, hyx2]

/-! ## The outcomes of `addPolygon` -/

theorem addPolygon_short (db : Store) (p : polygon) (h : p.Points.length < 3) :
    addPolygon db p = ⟨p, some "addPolygon: you must have atleast 3 vertices", []⟩ := by
  simp [addPolygon, h]

theorem addPolygon_name_taken (db : Store) (p : polygon) (h3 : 3 ≤ p.Points.length)
    (hex : db.dbNameExists p.Name = .ok true) :
    addPolygon db p =
      ⟨p, some "addPolygon: polygon with that name already exists", [.nameExists p.Name]⟩ := by
  have h : ¬ p.Points.length < 3 := by omega
  simp [addPolygon, h, hex]

theorem addPolygon_points (db : Store) (p : polygon) (h3 : 3 ≤ p.Points.length)
    (hex : db.dbNameExists p.Name = .ok false) :
    (addPolygon db p).poly.Points = closeAndReverse p.Points := by
  have h : ¬ p.Points.length < 3 := by omega
  simp only [addPolygon, h, hex, if_false]
  split
  · rfl
  · rfl
  · split <;> rfl

theorem addPolygon_accepts (db : Store) (p : polygon) (h3 : 3 ≤ p.Points.length)
    (hex : db.dbNameExists p.Name = .ok false)
    (hint : db.dbCheckIntersections (closeAndReverse p.Points) = .ok false)
    (hvalid : (getArea (closeAndReverse p.Points)).2 = true) :
    addPolygon db p =
      ⟨⟨closeAndReverse p.Points, (getArea (closeAndReverse p.Points)).1, p.Name⟩, none,
        [.nameExists p.Name, .checkIntersections (closeAndReverse p.Points)]⟩ := by
  have h : ¬ p.Points.length < 3 := by omega
  simp [addPolygon, h, hex, hint, hvalid]

theorem addPolygon_err_none (db : Store) (p : polygon) (h : (addPolygon db p).err = none) :
    3 ≤ p.Points.length ∧ (getArea (closeAndReverse p.Points)).2 = true ∧
      (addPolygon db p).poly =
        ⟨closeAndReverse p.Points, (getArea (closeAndReverse p.Points)).1, p.Name⟩ := by
  by_cases hlen : p.Points.length < 3
  · rw [addPolygon_short db p hlen] at h; cases h
  · have h3 : 3 ≤ p.Points.length := by omega
    cases hex : db.dbNameExists p.Name with
    | error e => simp [addPolygon, hlen, hex] at h
    | ok taken =>
      cases taken with
      | true => rw [addPolygon_name_taken db p h3 hex] at h; cases h
      | false =>
        cases hint : db.dbCheckIntersections (closeAndReverse p.Points) with
        | error e => simp [addPolygon, hlen, hex, hint] at h
        | ok crossing =>
          cases crossing with
          | true => simp [addPolygon, hlen, hex, hint] at h
          | false =>
            cases hvalid : (getArea (closeAndReverse p.Points)).2 with
            | false => simp [addPolygon, hlen, hex, hint, hvalid] at h
            | true => exact ⟨h3, rfl, by rw [addPolygon_accepts db p h3 hex hint hvalid]⟩

/-! ## The claims -/

/-- C1: whatever the store answers, `addPolygon` returns an error when some
submitted point has its x or its y outside `[0, 999999]`. -/
theorem addPolygon_rejects_out_of_range (db : Store) (p : polygon)
    (h : ∃ pt ∈ p.Points, (pt.X < 0 ∨ 999999 < pt.X) ∨ (pt.Y < 0 ∨ 999999 < pt.Y)) :
    (addPolygon db p).err ≠ none := by
  intro hnone
  obtain ⟨_, hvalid, _⟩ := addPolygon_err_none db p hnone
  obtain ⟨pt, hmem, hout⟩ := h
  have hbad : verifyPoint pt = false := (verifyPoint_eq_false_iff pt).2 hout
  have hrej := getArea_unchecked (closeAndReverse p.Points)
    ⟨pt, (mem_dropLast_closeAndReverse p.Points pt).2 hmem, hbad⟩
  rw [hrej] at hvalid
  cases hvalid

/-- Witness for C1: a triangle with the vertex `(10, -1)` is refused by the
empty store. -/
theorem addPolygon_rejects_out_of_range_witness :
    (addPolygon emptyStore ⟨[⟨0, 0⟩, ⟨10, 0⟩, ⟨10, -1⟩], .finite 0, "low"⟩).err ≠ none :=
  addPolygon_rejects_out_of_range emptyStore ⟨[⟨0, 0⟩, ⟨10, 0⟩, ⟨10, -1⟩], .finite 0, "low"⟩
    ⟨⟨10, -1⟩, by simp, by norm_num⟩

/-- C2: on every ring handed to `getArea`, that is a closed list (its first
and last points agree, at least two points; the call on line 111 passes
`closeAndReverse` of at least three points), a vertex failing `verifyPoint`
anywhere in the ring, the last position included, makes `getArea` return
area 0 and `valid = false`. -/
theorem getArea_invalid_of_failing_vertex (points : List point) (h2 : 2 ≤ points.length)
    (hclosed : points.head? = points.getLast?)
    (hbad : ∃ pt ∈ points, verifyPoint pt = false) :
    getArea points = (.finite 0, false) := by
  obtain ⟨pt, hmem, hfail⟩ := hbad
  exact getArea_unchecked points ⟨pt, mem_dropLast_of_closed points h2 hclosed pt hmem, hfail⟩

/-- Witness for C2: the ring built on line 99-100 from `(-5,0), (10,0),
(10,10)` ends with the failing vertex `(-5,0)`. -/
theorem getArea_invalid_of_failing_vertex_witness :
    (closeAndReverse [⟨-5, 0⟩, ⟨10, 0⟩, ⟨10, 10⟩]).getLast? = some ⟨-5, 0⟩ ∧
      verifyPoint ⟨-5, 0⟩ = false ∧
      getArea (closeAndReverse [⟨-5, 0⟩, ⟨10, 0⟩, ⟨10, 10⟩]) = (.finite 0, false) := by
  have hc := closeAndReverse_closed [⟨-5, 0⟩, ⟨10, 0⟩, ⟨10, 10⟩] (by decide)
  have hfail : verifyPoint ⟨-5, 0⟩ = false := by
    rw [verifyPoint_eq_false_iff]; norm_num
  refine ⟨?_, hfail, ?_⟩
  · rw [← hc.2, closeAndReverse_cons]; rfl
  · exact getArea_invalid_of_failing_vertex _ hc.1 hc.2
      ⟨⟨-5, 0⟩, (mem_closeAndReverse _ _).2 (by simp), hfail⟩

/-- C4, as stated, fails: the ring `(0,0), (1,0), (1,1), (0,0)` is already
closed, yet `addPolygon` leaves five points, not the four of the reversed
ring. -/
theorem addPolygon_closes_closed_ring :
    ([(⟨0, 0⟩ : point), ⟨1, 0⟩, ⟨1, 1⟩, ⟨0, 0⟩].head? =
        [(⟨0, 0⟩ : point), ⟨1, 0⟩, ⟨1, 1⟩, ⟨0, 0⟩].getLast?) ∧
      (addPolygon emptyStore
          ⟨[⟨0, 0⟩, ⟨1, 0⟩, ⟨1, 1⟩, ⟨0, 0⟩], .finite 0, "sq"⟩).poly.Points ≠
        [(⟨0, 0⟩ : point), ⟨1, 0⟩, ⟨1, 1⟩, ⟨0, 0⟩].reverse ∧
      (addPolygon emptyStore
          ⟨[⟨0, 0⟩, ⟨1, 0⟩, ⟨1, 1⟩, ⟨0, 0⟩], .finite 0, "sq"⟩).poly.Points.length = 5 := by
  have hpts := addPolygon_points emptyStore ⟨[⟨0, 0⟩, ⟨1, 0⟩, ⟨1, 1⟩, ⟨0, 0⟩], .finite 0, "sq"⟩
    (by decide) rfl
  rw [hpts, closeAndReverse_cons]
  refine ⟨rfl, ?_, rfl⟩
  intro heq
  have hlen := congrArg List.length heq
  simp at hlen

/-- C4, amended: the closing point is appended unconditionally. For every
ring `r` with at least 3 points the normalized ring is `reverse (r ++ [r[0]])`,
one point longer than `r`, and this is the ring `addPolygon` leaves in the
candidate once the name check has passed. -/
theorem addPolygon_normalizes (r : List point) (h3 : 3 ≤ r.length) :
    closeAndReverse r = (r ++ [r[0]]).reverse ∧
      (closeAndReverse r).length = r.length + 1 ∧
      ∀ (db : Store) (area : float32) (name : String), db.dbNameExists name = .ok false →
        (addPolygon db ⟨r, area, name⟩).poly.Points = (r ++ [r[0]]).reverse := by
  have hclose := closeAndReverse_eq r (by omega)
  refine ⟨hclose, by rw [hclose]; simp, fun db area name hex => ?_⟩
  rw [addPolygon_points db ⟨r, area, name⟩ h3 hex, hclose]

/-- Witness for the amended C4: the already closed square `(0,0), (1,0), (1,1),
(0,0)` receives a fifth point. -/
theorem addPolygon_normalizes_witness :
    closeAndReverse [⟨0, 0⟩, ⟨1, 0⟩, ⟨1, 1⟩, ⟨0, 0⟩] =
      [⟨0, 0⟩, ⟨0, 0⟩, ⟨1, 1⟩, ⟨1, 0⟩, ⟨0, 0⟩] :=
  (addPolygon_normalizes [⟨0, 0⟩, ⟨1, 0⟩, ⟨1, 1⟩, ⟨0, 0⟩] (by decide)).1

/-- C5, as stated, fails: the triangle `(1,1), (4097,1), (1,4097)` passes
`verifyPoint` at every vertex, and the pipeline computes the area
`-16777213 / 2` for it and `-16777215 / 2` for its rotation by one position
(the exact value is `-8388608`): the roundings of the running sums depend on
the vertex the ring starts with. -/
theorem getArea_rotation_changes_rounding :
    (∀ pt ∈ [(⟨1, 1⟩ : point), ⟨4097, 1⟩, ⟨1, 4097⟩], verifyPoint pt = true) ∧
      getArea (closeAndReverse [⟨1, 1⟩, ⟨4097, 1⟩, ⟨1, 4097⟩]) =
        (.finite (-16777213 / 2), true) ∧
      getArea (closeAndReverse ([⟨1, 1⟩, ⟨4097, 1⟩, ⟨1, 4097⟩].rotate 1)) =
        (.finite (-16777215 / 2), true) := by
  have hv0 : verifyPoint ⟨1, 1⟩ = true := by
    rw [verifyPoint_eq_true_iff, inBounds]; norm_num
  have hv1 : verifyPoint ⟨4097, 1⟩ = true := by
    rw [verifyPoint_eq_true_iff, inBounds]; norm_num
  have hv2 : verifyPoint ⟨1, 4097⟩ = true := by
    rw [verifyPoint_eq_true_iff, inBounds]; norm_num
  have r1 : round32 1 = .finite 1 := by simpa using round32_natCast 1 (by norm_num)
  have r2 : round32 2 = .finite 2 := by simpa using round32_natCast 2 (by norm_num)
  have r4097 : round32 4097 = .finite 4097 := by
    simpa using round32_natCast 4097 (by norm_num)
  have r4098 : round32 4098 = .finite 4098 := by
    simpa using round32_natCast 4098 (by norm_num)
  have r8194 : round32 8194 = .finite 8194 := by
    simpa using round32_natCast 8194 (by norm_num)
  have r8195 : round32 8195 = .finite 8195 := by
    simpa using round32_natCast 8195 (by norm_num)
  have rd1 : round32 (-16777213) = .finite (-16777213) := by
    simpa using round32_intCast (-16777213) (by norm_num)
  have rd2 : round32 (-16777215) = .finite (-16777215) := by
    simpa using round32_intCast (-16777215) (by norm_num)
  have rh1 : round32 (-(16777213 / 2)) = .finite (-(16777213 / 2)) := by
    have h := round32_half_intCast (-16777213) (by norm_num)
    norm_num at h
    exact h
  have rh2 : round32 (-(16777215 / 2)) = .finite (-(16777215 / 2)) := by
    have h := round32_half_intCast (-16777215) (by norm_num)
    norm_num at h
    exact h
  have hrot : [(⟨1, 1⟩ : point), ⟨4097, 1⟩, ⟨1, 4097⟩].rotate 1 =
      [⟨4097, 1⟩, ⟨1, 4097⟩, ⟨1, 1⟩] := by
    simp [List.rotate_cons_succ]
  have hA : closeAndReverse [⟨1, 1⟩, ⟨4097, 1⟩, ⟨1, 4097⟩] =
      [⟨1, 1⟩, ⟨1, 4097⟩, ⟨4097, 1⟩, ⟨1, 1⟩] := by
    rw [closeAndReverse_cons]; rfl
  have hB : closeAndReverse [⟨4097, 1⟩, ⟨1, 4097⟩, ⟨1, 1⟩] =
      [⟨4097, 1⟩, ⟨1, 1⟩, ⟨1, 4097⟩, ⟨4097, 1⟩] := by
    rw [closeAndReverse_cons]; rfl
  refine ⟨?_, ?_, ?_⟩
  · intro pt hpt
    simp only [List.mem_cons, List.mem_singleton, List.not_mem_nil, or_false] at hpt
    rcases hpt with rfl | rfl | rfl <;> assumption
  · rw [hA]
    norm_num [getArea, getAreaLoop, f32mul, f32add_finite, f32sub_finite, f32half_finite, hv0, hv1,
      hv2, round32_zero, round32_16785409, round32_16785408, r1, r4097, r4098, r8195, rd1, rh1]
  · rw [hrot, hB]
    norm_num [getArea, getAreaLoop, f32mul, f32add_finite, f32sub_finite, f32half_finite, hv0, hv1,
      hv2, round32_zero, round32_16785410, round32_16785408, round32_16785409, r1, r2, r4097,
      r8194, r8195, rd2, rh2]

/-- C5, amended: for a ring of at least 3 points that all pass `verifyPoint`,
with whole-number coordinates and both shoelace sums over the closed ring
below `2 ^ 24` (no `float32` operation rounds), the result of `getArea` on the
normalized ring is the same for the ring and for the ring rotated by `k`
positions; the flag is `true`, and two successful admissions of the ring and
of its rotation record the same area. -/
theorem getArea_rotation_invariant_unrounded (ring : List point) (k : Nat)
    (h3 : 3 ≤ ring.length) (hb : ∀ pt ∈ ring, verifyPoint pt = true)
    (hw : ∀ pt ∈ ring, wholePoint pt)
    (hxy : pairSum xyTerm (ring ++ [ring[0]]) < 2 ^ 24)
    (hyx : pairSum yxTerm (ring ++ [ring[0]]) < 2 ^ 24) :
    getArea (closeAndReverse (ring.rotate k)) = getArea (closeAndReverse ring) ∧
      (getArea (closeAndReverse ring)).2 = true ∧
      ∀ (db : Store) (p q : polygon), p.Points = ring → q.Points = ring.rotate k →
        (addPolygon db p).err = none → (addPolygon db q).err = none →
        (addPolygon db q).poly.Area = (addPolygon db p).poly.Area := by
  have htake : ring.take 1 = [ring[0]] := by
    match ring, h3 with
    | a :: rest, _ => rfl
  rw [← htake] at hxy hyx
  have hrotv : ∀ pt ∈ ring.rotate k, verifyPoint pt = true :=
    fun pt hpt => hb pt (List.mem_rotate.1 hpt)
  have hrotw : ∀ pt ∈ ring.rotate k, wholePoint pt :=
    fun pt hpt => hw pt (List.mem_rotate.1 hpt)
  have harea : getArea (closeAndReverse (ring.rotate k)) = getArea (closeAndReverse ring) := by
    rw [getArea_closeAndReverse_exact _ hb hw hxy hyx,
      getArea_closeAndReverse_exact _ hrotv hrotw
        (by rw [pairSum_close_rotate]; exact hxy) (by rw [pairSum_close_rotate]; exact hyx),
      pairSum_close_rotate, pairSum_close_rotate]
  refine ⟨harea, getArea_closeAndReverse_valid _ hb, ?_⟩
  intro db p q hp hq hpok hqok
  rw [(addPolygon_err_none db p hpok).2.2, (addPolygon_err_none db q hqok).2.2, hp, hq, harea]

/-- Witness for the amended C5: the triangle `(0,0), (10,0), (10,10)` and its
rotation by one position. -/
theorem getArea_rotation_invariant_unrounded_witness :
    getArea (closeAndReverse ([⟨0, 0⟩, ⟨10, 0⟩, ⟨10, 10⟩].rotate 1)) =
      getArea (closeAndReverse [⟨0, 0⟩, ⟨10, 0⟩, ⟨10, 10⟩]) :=
  (getArea_rotation_invariant_unrounded [⟨0, 0⟩, ⟨10, 0⟩, ⟨10, 10⟩] 1 (by decide)
    (by
      intro pt hpt
      rw [verifyPoint_eq_true_iff, inBounds]
      simp at hpt
      rcases hpt with rfl | rfl | rfl <;> norm_num)
    (by
      intro pt hpt
      simp at hpt
      rcases hpt with rfl | rfl | rfl
      · exact ⟨0, 0, by norm_num, by norm_num⟩
      · exact ⟨10, 0, by norm_num, by norm_num⟩
      · exact ⟨10, 10, by norm_num, by norm_num⟩)
    (by norm_num [pairSum, xyTerm]) (by norm_num [pairSum, yxTerm])).1

/-- C6: a candidate with at least 3 points, all in bounds, whose name the
store reports as unused and whose normalized ring the store reports as not
intersecting, is accepted: no error, `Points` is the input closed with its
first point and reversed, `Area` is `getArea` of that ring, `Name` is kept. -/
theorem addPolygon_accepts_candidate (db : Store) (p : polygon) (h3 : 3 ≤ p.Points.length)
    (hname : db.dbNameExists p.Name = .ok false)
    (hfree : db.dbCheckIntersections (p.Points ++ [p.Points[0]]).reverse = .ok false)
    (hb : ∀ pt ∈ p.Points, inBounds pt) :
    (addPolygon db p).err = none ∧
      (addPolygon db p).poly.Points = (p.Points ++ [p.Points[0]]).reverse ∧
      (addPolygon db p).poly.Area = (getArea (p.Points ++ [p.Points[0]]).reverse).1 ∧
      (addPolygon db p).poly.Name = p.Name := by
  have hclose := closeAndReverse_eq p.Points (by omega)
  have hchecked : ∀ pt ∈ p.Points, verifyPoint pt = true :=
    fun pt hpt => (verifyPoint_eq_true_iff pt).2 (hb pt hpt)
  have hvalid : (getArea (closeAndReverse p.Points)).2 = true :=
    getArea_closeAndReverse_valid _ hchecked
  rw [← hclose] at hfree ⊢
  rw [addPolygon_accepts db p h3 hname hfree hvalid]
  exact ⟨rfl, rfl, rfl, rfl⟩

/-- Witness for C6: the triangle `(0,0), (10,0), (10,10)` named `t1` is
admitted by the empty store with the ring `(0,0), (10,10), (10,0), (0,0)` and
the area `-50`, of absolute value 50. -/
theorem addPolygon_accepts_candidate_witness :
    (addPolygon emptyStore ⟨[⟨0, 0⟩, ⟨10, 0⟩, ⟨10, 10⟩], .finite 0, "t1"⟩).err = none ∧
      (addPolygon emptyStore ⟨[⟨0, 0⟩, ⟨10, 0⟩, ⟨10, 10⟩], .finite 0, "t1"⟩).poly.Points =
        [⟨0, 0⟩, ⟨10, 10⟩, ⟨10, 0⟩, ⟨0, 0⟩] ∧
      (∃ a : ℚ, (addPolygon emptyStore
          ⟨[⟨0, 0⟩, ⟨10, 0⟩, ⟨10, 10⟩], .finite 0, "t1"⟩).poly.Area = .finite a ∧ |a| = 50) ∧
      (addPolygon emptyStore ⟨[⟨0, 0⟩, ⟨10, 0⟩, ⟨10, 10⟩], .finite 0, "t1"⟩).poly.Name = "t1" := by
  have hin : ∀ pt ∈ [(⟨0, 0⟩ : point), ⟨10, 0⟩, ⟨10, 10⟩], inBounds pt := by
    intro pt hpt
    rw [inBounds]
    simp at hpt
    rcases hpt with rfl | rfl | rfl <;> norm_num
  obtain ⟨herr, hpts, harea, hnm⟩ :=
    addPolygon_accepts_candidate emptyStore ⟨[⟨0, 0⟩, ⟨10, 0⟩, ⟨10, 10⟩], .finite 0, "t1"⟩
      (by decide) rfl rfl hin
  refine ⟨herr, hpts, ⟨-50, ?_, by norm_num⟩, hnm⟩
  rw [harea]
  have hring : ∀ pt ∈ [(⟨0, 0⟩ : point), ⟨10, 10⟩, ⟨10, 0⟩, ⟨0, 0⟩].dropLast,
      verifyPoint pt = true := by
    intro pt hpt
    rw [verifyPoint_eq_true_iff, inBounds]
    simp [List.dropLast] at hpt
    rcases hpt with rfl | rfl | rfl <;> norm_num
  have hwhole : ∀ pt ∈ [(⟨0, 0⟩ : point), ⟨10, 10⟩, ⟨10, 0⟩, ⟨0, 0⟩], wholePoint pt := by
    intro pt hpt
    simp at hpt
    rcases hpt with rfl | rfl | rfl | rfl
    · exact ⟨0, 0, by norm_num, by norm_num⟩
    · exact ⟨10, 10, by norm_num, by norm_num⟩
    · exact ⟨10, 0, by norm_num, by norm_num⟩
    · exact ⟨0, 0, by norm_num, by norm_num⟩
  have hval : getArea [⟨0, 0⟩, ⟨10, 10⟩, ⟨10, 0⟩, ⟨0, 0⟩] = (.finite (-50), true) := by
    rw [getArea_exact _ hring hwhole (by norm_num [pairSum, xyTerm])
      (by norm_num [pairSum, yxTerm])]
    norm_num [pairSum, xyTerm, yxTerm]
  show (getArea [⟨0, 0⟩, ⟨10, 10⟩, ⟨10, 0⟩, ⟨0, 0⟩]).1 = .finite (-50)
  rw [hval]

/-- C7: a candidate with fewer than 3 points is refused with an error, no
store call is issued, and the candidate is left as it was. -/
theorem addPolygon_too_few_vertices (db : Store) (p : polygon) (h : p.Points.length < 3) :
    (addPolygon db p).err ≠ none ∧ (addPolygon db p).calls = [] ∧ (addPolygon db p).poly = p := by
  rw [addPolygon_short db p h]
  exact ⟨by simp, rfl, rfl⟩

/-- Witness for C7: a ring of two points against the empty store. -/
theorem addPolygon_too_few_vertices_witness :
    (addPolygon emptyStore ⟨[⟨0, 0⟩, ⟨10, 0⟩], .finite 0, "seg"⟩).err ≠ none ∧
      (addPolygon emptyStore ⟨[⟨0, 0⟩, ⟨10, 0⟩], .finite 0, "seg"⟩).calls = [] ∧
      (addPolygon emptyStore ⟨[⟨0, 0⟩, ⟨10, 0⟩], .finite 0, "seg"⟩).poly = ⟨[⟨0, 0⟩, ⟨10, 0⟩], .finite 0, "seg"⟩ :=
  addPolygon_too_few_vertices emptyStore ⟨[⟨0, 0⟩, ⟨10, 0⟩], .finite 0, "seg"⟩ (by decide)

/-- C8: when the store reports the candidate's name as existing, `addPolygon`
returns an error after the name query alone (no intersection query), leaves
the candidate untouched, and `postPolygons` answers 400 with the same single
store call (no insert, no listing) and an unchanged cache. -/
theorem addPolygon_duplicate_name (db : Store) (p : polygon) (h3 : 3 ≤ p.Points.length)
    (hex : db.dbNameExists p.Name = .ok true) :
    (addPolygon db p).err ≠ none ∧
      (addPolygon db p).calls = [.nameExists p.Name] ∧
      (addPolygon db p).poly = p ∧
      ∀ cache : List polygon,
        postPolygons db cache (some p) = ⟨400, cache, [.nameExists p.Name]⟩ := by
  have hres := addPolygon_name_taken db p h3 hex
  refine ⟨by rw [hres]; simp, by rw [hres], by rw [hres], fun cache => ?_⟩
  simp [postPolygons, hres]

/-- Witness for C8: a second triangle named `t1` against a store that already
holds that name. -/
theorem addPolygon_duplicate_name_witness :
    (addPolygon storeWithT1 ⟨[⟨0, 0⟩, ⟨10, 0⟩, ⟨10, 10⟩], .finite 0, "t1"⟩).err ≠ none ∧
      (addPolygon storeWithT1 ⟨[⟨0, 0⟩, ⟨10, 0⟩, ⟨10, 10⟩], .finite 0, "t1"⟩).calls =
        [.nameExists "t1"] :=
  have h := addPolygon_duplicate_name storeWithT1 ⟨[⟨0, 0⟩, ⟨10, 0⟩, ⟨10, 10⟩], .finite 0, "t1"⟩
    (by decide) rfl
  ⟨h.1, h.2.1⟩

/-- C9: `verifyPoint` answers `true` exactly when both coordinates lie in
`[0, 999999]`; the tags of the field `X` bound `Y` as well. -/
theorem verifyPoint_iff_in_range (pt : point) :
    verifyPoint pt = true ↔ (0 ≤ pt.X ∧ pt.X ≤ 999999) ∧ (0 ≤ pt.Y ∧ pt.Y ≤ 999999) :=
  verifyPoint_eq_true_iff pt

/-- C10, as stated, fails: for the generated ring `g = (0,0), (10,0), (10,10)`
the task is accepted by the empty store, and the accepted ring is not
`reverse (g ++ [g[0]])`. -/
theorem generatorTask_not_reversed_once :
    (generatorTask emptyStore "7" 0 [⟨0, 0⟩, ⟨10, 0⟩, ⟨10, 10⟩]).err = none ∧
      (generatorTask emptyStore "7" 0 [⟨0, 0⟩, ⟨10, 0⟩, ⟨10, 10⟩]).poly.Points ≠
        ([(⟨0, 0⟩ : point), ⟨10, 0⟩, ⟨10, 10⟩] ++ [(⟨0, 0⟩ : point)]).reverse := by
  have hin : ∀ pt ∈ [(⟨10, 10⟩ : point), ⟨10, 0⟩, ⟨0, 0⟩], verifyPoint pt = true := by
    intro pt hpt
    rw [verifyPoint_eq_true_iff, inBounds]
    simp at hpt
    rcases hpt with rfl | rfl | rfl <;> norm_num
  have hvalid : (getArea (closeAndReverse [(⟨10, 10⟩ : point), ⟨10, 0⟩, ⟨0, 0⟩])).2 = true :=
    getArea_closeAndReverse_valid _ hin
  have hres := addPolygon_accepts emptyStore
    ⟨[⟨10, 10⟩, ⟨10, 0⟩, ⟨0, 0⟩], .finite 0, "randomPoly_7_0"⟩ (by decide) rfl rfl hvalid
  have htask : generatorTask emptyStore "7" 0 [⟨0, 0⟩, ⟨10, 0⟩, ⟨10, 10⟩] =
      addPolygon emptyStore ⟨[⟨10, 10⟩, ⟨10, 0⟩, ⟨0, 0⟩], .finite 0, "randomPoly_7_0"⟩ := by
    simp only [generatorTask, reverse_eq]
    rfl
  rw [htask, hres]
  refine ⟨rfl, ?_⟩
  simp only [closeAndReverse_cons]
  decide

/-- C10, amended: the task reverses the generated ring and `addPolygon`
reverses it again after closing it, so the ring is reversed twice. For every
generated ring `g` of at least 3 points whose admission succeeds, the accepted
ring is `g` preceded by a copy of its last point. -/
theorem generatorTask_ring (db : Store) (id : String) (i : Nat) (g : List point)
    (h3 : 3 ≤ g.length) (hok : (generatorTask db id i g).err = none) :
    (generatorTask db id i g).poly.Points = g[g.length - 1] :: g := by
  have hpoly := (addPolygon_err_none db _ hok).2.2
  have hpts : (generatorTask db id i g).poly.Points = closeAndReverse (reverse g) := by
    unfold generatorTask
    rw [hpoly]
  rw [hpts, reverse_eq]
  rcases List.eq_nil_or_concat g with hnil | ⟨front, z, hg⟩
  · subst hnil; simp at h3
  · rw [List.concat_eq_append] at hg
    subst hg
    rw [List.reverse_concat, closeAndReverse_cons]
    simp

/-- Witness for the amended C10: the generated triangle `(0,0), (10,0),
(10,10)` is stored as `(10,10), (0,0), (10,0), (10,10)`. -/
theorem generatorTask_ring_witness :
    (generatorTask emptyStore "7" 0 [⟨0, 0⟩, ⟨10, 0⟩, ⟨10, 10⟩]).poly.Points =
      [⟨10, 10⟩, ⟨0, 0⟩, ⟨10, 0⟩, ⟨10, 10⟩] := by
  have hin : ∀ pt ∈ [(⟨10, 10⟩ : point), ⟨10, 0⟩, ⟨0, 0⟩], verifyPoint pt = true := by
    intro pt hpt
    rw [verifyPoint_eq_true_iff, inBounds]
    simp at hpt
    rcases hpt with rfl | rfl | rfl <;> norm_num
  have hvalid : (getArea (closeAndReverse [(⟨10, 10⟩ : point), ⟨10, 0⟩, ⟨0, 0⟩])).2 = true :=
    getArea_closeAndReverse_valid _ hin
  have hres := addPolygon_accepts emptyStore
    ⟨[⟨10, 10⟩, ⟨10, 0⟩, ⟨0, 0⟩], .finite 0, "randomPoly_7_0"⟩ (by decide) rfl rfl hvalid
  have htask : generatorTask emptyStore "7" 0 [⟨0, 0⟩, ⟨10, 0⟩, ⟨10, 10⟩] =
      addPolygon emptyStore ⟨[⟨10, 10⟩, ⟨10, 0⟩, ⟨0, 0⟩], .finite 0, "randomPoly_7_0"⟩ := by
    simp only [generatorTask, reverse_eq]
    rfl
  exact generatorTask_ring emptyStore "7" 0 [⟨0, 0⟩, ⟨10, 0⟩, ⟨10, 10⟩] (by decide)
    (by rw [htask, hres])

end GoRestApi
